import Mathlib

/-!
Verification of the health-tracker analytical core and data store.

The source is a small Python application:
  * `src/analysis.py` — pure functions over a time series of
    (date, weight_lbs, calories) samples;
  * `src/database.py` — a sqlite-backed store of entries keyed by
    (username, date), with CSV export/import.

Embedding conventions:
  * Python floats are modelled as exact rationals (`ℚ`);
  * dates are modelled as integer day numbers for the analysis layer
    (days since 1970-01-01, a Thursday) and as strings for the storage
    layer (sqlite stores the `date` column as TEXT);
  * `None` / NaN-able values become `Option`;
  * Python `round` (banker's rounding, half to even) is modelled
    exactly by `roundHalfEven`.
-/

namespace HealthTracker

/-- Python `round(q)`: round half to even, as an integer. -/
def roundHalfEven (q : ℚ) : ℤ :=
  if q - ⌊q⌋ < 1/2 then ⌊q⌋
  else if q - ⌊q⌋ > 1/2 then ⌊q⌋ + 1
  else if Even ⌊q⌋ then ⌊q⌋ else ⌊q⌋ + 1

/-- Python `round(q, 2)`: round half to even at two decimal places. -/
def round2 (q : ℚ) : ℚ := (roundHalfEven (q * 100) : ℚ) / 100

/-- Mean of a list of rationals (`pandas` mean over a nonempty group). -/
def listMean (l : List ℚ) : ℚ := l.sum / l.length

/-- One sample of the analysis-layer series: a calendar date (day
number), a weight in pounds, and an optional calorie count. -/
structure Entry where
  date : ℤ
  weight_lbs : ℚ
  calories : Option ℚ
  deriving Repr, DecidableEq

instance : Inhabited Entry := ⟨⟨0, 0, none⟩⟩

/-- Model of `df.sort_values("date")`: stable sort of the series by date
(pandas `sort_values` uses a stable sort; `List.insertionSort` is
stable in the same sense). -/
def sortByDate (l : List Entry) : List Entry :=
  l.insertionSort (fun a b => a.date ≤ b.date)

/-- Model of `calc_rolling_average(df, window)` from `src/analysis.py`:
`df["weight_lbs"].rolling(window=window, min_periods=1).mean()` — at
each index the mean of the trailing `window` values ending there,
using however many are available at the start. -/
def calc_rolling_average (weights : List ℚ) (window : ℕ) : List ℚ :=
  (List.range weights.length).map fun i =>
    listMean ((weights.take (i + 1)).drop (i + 1 - window))

/-- Model of `(df["date"].iloc[-1] - df["date"].iloc[0]).days` over the sorted
series: the day span between first and last entry. -/
def totalDays (entries : List Entry) : ℤ :=
  (sortByDate entries).getLastI.date - (sortByDate entries).headI.date

/-- Model of `df["weight_lbs"].iloc[-1] - df["weight_lbs"].iloc[0]` over the
sorted series. -/
def totalChange (entries : List Entry) : ℚ :=
  (sortByDate entries).getLastI.weight_lbs - (sortByDate entries).headI.weight_lbs

/-- Model of `calc_weekly_weight_change(df)` from `src/analysis.py`. -/
def calc_weekly_weight_change (entries : List Entry) : Option ℚ :=
  if entries.length < 2 then none
  else if totalDays entries = 0 then some 0
  else some (round2 (totalChange entries / ((totalDays entries : ℚ) / 7)))

/-- Model of `df.dropna(subset=["calories"])`: keep the calorie-bearing rows. -/
def calBearing (entries : List Entry) : List Entry :=
  entries.filter fun e => e.calories.isSome

/-- Mean calories over the calorie-bearing rows:
`df_cal["calories"].mean()`. -/
def avgCalories (entries : List Entry) : ℚ :=
  listMean ((calBearing entries).map fun e => e.calories.getD 0)

/-- Model of `estimate_maintenance_calories(df)` from `src/analysis.py`. -/
def estimate_maintenance_calories (entries : List Entry) : Option ℤ :=
  if (calBearing entries).length < 2 then none
  else
    match calc_weekly_weight_change entries with
    | none => none
    | some weekly_change =>
        some (roundHalfEven (avgCalories entries - weekly_change * 3500 / 7))

/-- Model of `get_trend_direction(weekly_change)` from `src/analysis.py`. -/
def get_trend_direction (weekly_change : Option ℚ) : String :=
  match weekly_change with
  | none => "Insufficient Data"
  | some w =>
    if w < -(1/10) then "Losing"
    else if w > 1/10 then "Gaining"
    else "Maintaining"

/-! ## Weekly calorie/weight aggregation (`calc_calorie_vs_weight_data`) -/

/-- Calendar-week bucket of `pandas` `resample("W")`: weeks end on
Sunday, labelled here by a week index.  Day 0 = 1970-01-01 was a
Thursday, so days 0..3 fall into week 0 (ending Sunday, day 3). -/
def weekOf (d : ℤ) : ℤ := (d + 3).fdiv 7
/-- The working frame of `calc_calorie_vs_weight_data` after
`dropna(subset=["calories"])` and `sort_values("date")`. -/
def dfCal (entries : List Entry) : List Entry := sortByDate (calBearing entries)
/-- The distinct calendar weeks of the series, in order.  `resample`
emits one row per week of the covered range; weeks without entries
aggregate to NaN and are removed by the following `dropna()`, leaving
exactly the weeks that contain at least one entry. -/
def weeksOf (df : List Entry) : List ℤ := (df.map fun e => weekOf e.date).dedup
/-- The entries falling into calendar week `w`. -/
def weekGroup (df : List Entry) (w : ℤ) : List Entry :=
  df.filter fun e => decide (weekOf e.date = w)
/-- Per-week aggregate of `resample("W").agg(...)` after `dropna()`:
one row `(week, mean calories, mean weight)` per non-empty week. -/
def weeklyAgg (df : List Entry) : List (ℤ × ℚ × ℚ) :=
  (weeksOf df).map fun w =>
    (w, listMean ((weekGroup df w).map fun e => e.calories.getD 0),
        listMean ((weekGroup df w).map fun e => e.weight_lbs))
/-- One row of the frame returned by `calc_calorie_vs_weight_data`. -/
structure WeeklyRow where
  week : ℤ
  calories : ℚ
  weight_lbs : ℚ
  weight_change : ℚ
  deriving Repr, DecidableEq
instance : Inhabited WeeklyRow := ⟨⟨0, 0, 0, 0⟩⟩
/-- The `weekly["weight_change"] = weekly["weight_lbs"].diff()` step
followed by `dropna()`: the first week (NaN diff) is dropped and each
remaining row carries the difference to the previous week. -/
def diffRows (weekly : List (ℤ × ℚ × ℚ)) : List WeeklyRow :=
  (weekly.zip weekly.tail).map fun p => ⟨p.2.1, p.2.2.1, p.2.2.2, p.2.2.2 - p.1.2.2⟩
/-- Model of `calc_calorie_vs_weight_data(df)` from `src/analysis.py`. -/
def calc_calorie_vs_weight_data (entries : List Entry) : Option (List WeeklyRow) :=
  if (dfCal entries).length < 14 then none
  else if (weeklyAgg (dfCal entries)).length < 2 then none
  else if (diffRows (weeklyAgg (dfCal entries))).length < 2 then none
  else some (diffRows (weeklyAgg (dfCal entries)))

/-- A concrete series of 14 calorie-bearing daily entries spanning
three calendar weeks (days 0..13). -/
def sample14 : List Entry :=
  [⟨0, 150, some 2000⟩, ⟨1, 150, some 2000⟩, ⟨2, 150, some 2000⟩, ⟨3, 150, some 2000⟩,
   ⟨4, 150, some 2000⟩, ⟨5, 150, some 2000⟩, ⟨6, 150, some 2000⟩, ⟨7, 150, some 2000⟩,
   ⟨8, 150, some 2000⟩, ⟨9, 150, some 2000⟩, ⟨10, 150, some 2000⟩, ⟨11, 150, some 2000⟩,
   ⟨12, 150, some 2000⟩, ⟨13, 150, some 2000⟩]

/-! ## Linear regression (`linear_regression_line` from `src/analysis.py`) -/

/-- Sum of squared deviations of the samples from their mean,
`Σ (xi - x̄)²`. -/
def sxx (x : List ℚ) : ℚ := (x.map fun xi => (xi - listMean x)^2).sum

/-- Sum of products of paired deviations from the means,
`Σ (xi - x̄)(yi - ȳ)`. -/
def sxy (x y : List ℚ) : ℚ :=
  ((x.zip y).map fun p => (p.1 - listMean x) * (p.2 - listMean y)).sum

/-- Model of `linear_regression_line(x, y)` from `src/analysis.py`:
`sklearn.linear_model.LinearRegression().fit`, i.e. ordinary least
squares.  sklearn centers the data and solves least squares on the
centered x, which gives the closed-form solution
`slope = sxy/sxx`, `intercept = ȳ - slope * x̄`; in the degenerate case
of all-equal x (`sxx = 0`) the least-norm solution is slope 0 and
intercept ȳ. -/
def linear_regression_line (x y : List ℚ) : Option (ℚ × ℚ) :=
  if x.length < 2 then none
  else if sxx x = 0 then some (0, listMean y)
  else some (sxy x y / sxx x, listMean y - (sxy x y / sxx x) * listMean x)

/-- First normal equation residual of the least-squares problem:
`Σ (yi - (a xi + b))`. -/
def residSum (x y : List ℚ) (a b : ℚ) : ℚ :=
  ((x.zip y).map fun p => p.2 - (a * p.1 + b)).sum

/-- Second normal equation residual of the least-squares problem:
`Σ xi (yi - (a xi + b))`. -/
def residDotX (x y : List ℚ) (a b : ℚ) : ℚ :=
  ((x.zip y).map fun p => p.1 * (p.2 - (a * p.1 + b))).sum

/-! ## Data store (`src/database.py`) -/

/-- One row of the sqlite `entries` table from `src/database.py`:
`(id, username, date, weight_lbs, calories)`.  `date` is a TEXT column;
the numeric columns are nullable. -/
structure DBEntry where
  id : ℕ
  username : String
  date : String
  weight_lbs : Option ℚ
  calories : Option ℚ
  deriving Repr, DecidableEq

/-- The `entries` table together with the AUTOINCREMENT id counter. -/
structure Store where
  rows : List DBEntry
  nextId : ℕ
  deriving Repr, DecidableEq

/-- A freshly initialised database (`init_db` on a new file). -/
def emptyStore : Store := ⟨[], 0⟩

/-- The column pair covered by the `UNIQUE(username, date)`
constraint. -/
def entryKey (e : DBEntry) : String × String := (e.username, e.date)

/-- Model of `INSERT OR REPLACE INTO entries (username, date,
weight_lbs, calories) VALUES (?, ?, ?, ?)`: sqlite deletes any row
violating `UNIQUE(username, date)` and inserts the new row with a
fresh id. -/
def insertOrReplace (username date : String) (w c : Option ℚ) (s : Store) : Store :=
  ⟨(s.rows.filter fun e => decide (¬(e.username = username ∧ e.date = date)))
      ++ [⟨s.nextId, username, date, w, c⟩], s.nextId + 1⟩

/-- Model of `save_entry` from `src/database.py`. -/
def save_entry (username date : String) (weight : ℚ) (calories : Option ℚ)
    (s : Store) : Store :=
  insertOrReplace username date (some weight) calories s

/-- Model of `delete_entry` from `src/database.py`. -/
def delete_entry (eid : ℕ) (s : Store) : Store :=
  ⟨s.rows.filter fun e => decide (¬ e.id = eid), s.nextId⟩

/-- Model of `update_entry` from `src/database.py`:
`UPDATE entries SET date = ?, weight_lbs = ?, calories = ? WHERE
id = ?`.  If the new `(username, date)` collides with a different row,
sqlite raises an IntegrityError before `commit`, so the connection is
closed without committing and the store is unchanged. -/
def update_entry (eid : ℕ) (date : String) (weight : ℚ) (calories : Option ℚ)
    (s : Store) : Store :=
  match s.rows.find? (fun e => decide (e.id = eid)) with
  | none => s
  | some e0 =>
    if ∃ e' ∈ s.rows, e'.id ≠ eid ∧ e'.username = e0.username ∧ e'.date = date
    then s
    else ⟨s.rows.map fun e =>
        if e.id = eid then ⟨e.id, e.username, date, some weight, calories⟩ else e,
      s.nextId⟩

/-- One data row of the CSV as read back by `pd.read_csv`, restricted
to the three columns `import_csv` consumes (`date`, `weight_lbs`,
`calories`); `none` models an empty cell (NaN). -/
structure CsvRow where
  date : Option String
  weight_lbs : Option ℚ
  calories : Option ℚ
  deriving Repr, DecidableEq

/-- Model of `str(row.get("date", ""))`: a present cell gives its own
string; an empty cell is NaN in pandas and `str(nan)` is `"nan"`. -/
def rowDateStr (r : CsvRow) : String := r.date.getD "nan"

/-- Model of `import_csv` from `src/database.py`: one
`INSERT OR REPLACE` per CSV data row, unconditionally. -/
def import_csv (username : String) (rows : List CsvRow) (s : Store) : Store :=
  rows.foldl
    (fun acc r => insertOrReplace username (rowDateStr r) r.weight_lbs r.calories acc) s

/-- The rows `SELECT * FROM entries WHERE username = ?` returns,
before ordering. -/
def userRows (username : String) (s : Store) : List DBEntry :=
  s.rows.filter fun e => decide (e.username = username)

/-- The `ORDER BY date ASC` step (dates are TEXT, so the order is the
string order). -/
def sortRowsByDate (l : List DBEntry) : List DBEntry :=
  l.insertionSort (fun a b => a.date ≤ b.date)

/-- Model of `export_csv` from `src/database.py`: `get_all_entries`
followed by `to_csv`.  The CSV also carries the `id` and `username`
columns, which `import_csv` never reads, so only the three consumed
columns are modelled; dates are stored in ISO form and round-trip
unchanged through pandas parsing and formatting, and pandas float
formatting round-trips exactly. -/
def export_csv (username : String) (s : Store) : List CsvRow :=
  (sortRowsByDate (userRows username s)).map fun e =>
    ⟨some e.date, e.weight_lbs, e.calories⟩

/-- The series view of one user: the `(date, weight, calories)`
content of their rows, forgetting ids. -/
def userSeries (username : String) (s : Store) : List (String × Option ℚ × Option ℚ) :=
  (userRows username s).map fun e => (e.date, e.weight_lbs, e.calories)

/-- The store states reachable through the Data Store operations. -/
inductive Reachable : Store → Prop
  | init : Reachable emptyStore
  | save (u d : String) (w : ℚ) (c : Option ℚ) (s : Store) :
      Reachable s → Reachable (save_entry u d w c s)
  | update (eid : ℕ) (d : String) (w : ℚ) (c : Option ℚ) (s : Store) :
      Reachable s → Reachable (update_entry eid d w c s)
  | delete (eid : ℕ) (s : Store) : Reachable s → Reachable (delete_entry eid s)
  | importRows (u : String) (rows : List CsvRow) (s : Store) :
      Reachable s → Reachable (import_csv u rows s)

/-- Invariant maintained by every operation: keys `(username, date)`
are pairwise distinct, ids are pairwise distinct, and all ids are below
the AUTOINCREMENT counter. -/
def StoreInv (s : Store) : Prop :=
  s.rows.Pairwise (fun a b => entryKey a ≠ entryKey b)
  ∧ s.rows.Pairwise (fun a b => a.id ≠ b.id)
  ∧ ∀ e ∈ s.rows, e.id < s.nextId

/-- A concrete two-entry store for one user with distinct dates. -/
def store2 : Store :=
  save_entry "alice" "2024-01-02" 151 none
    (save_entry "alice" "2024-01-01" 150 (some 2000) emptyStore)

/-! ## Helper lemmas -/

theorem calBearing_length_le (entries : List Entry) :
    (calBearing entries).length ≤ entries.length :=
  List.length_filter_le _ _

theorem weekly_isSome (entries : List Entry) (h2 : 2 ≤ entries.length) :
    ∃ wc, calc_weekly_weight_change entries = some wc := by
  unfold calc_weekly_weight_change
  rw [if_neg (by omega)]
  by_cases hspan : totalDays entries = 0
  · rw [if_pos hspan]; exact ⟨0, rfl⟩
  · rw [if_neg hspan]; exact ⟨_, rfl⟩

theorem drop_take_eq_ofFn (ws : List ℚ) (lo k : ℕ) (h : lo + k ≤ ws.length) :
    (ws.take (lo + k)).drop lo = List.ofFn (fun j : Fin k => ws.getD (lo + j) 0) := by
  apply List.ext_getElem
  · simp; omega
  · intro j hj1 hj2
    have hj : j < k := by simp at hj2; omega
    have hlt : lo + j < ws.length := by omega
    simp [List.getElem_drop, List.getElem_take, List.getD_eq_getElem, hlt]

theorem seg_sum (ws : List ℚ) (lo k m : ℕ) (hm : m = lo + k) (h : lo + k ≤ ws.length) :
    ((ws.take m).drop lo).sum = ∑ j ∈ Finset.range k, ws.getD (lo + j) 0 := by
  subst hm
  rw [drop_take_eq_ofFn ws lo k h, List.sum_ofFn]
  exact Fin.sum_univ_eq_sum_range (fun j => ws.getD (lo + j) 0) k

theorem sq_expand (x : List ℚ) (c : ℚ) :
    (x.map fun t => (t - c)^2).sum
      = (x.map fun t => t^2).sum - 2*c*x.sum + x.length * c^2 := by
  induction x with
  | nil => simp
  | cons a t ih => simp [ih]; ring

theorem prod_expand (x y : List ℚ) (c d : ℚ) (h : x.length = y.length) :
    ((x.zip y).map fun p => (p.1 - c) * (p.2 - d)).sum
      = ((x.zip y).map fun p => p.1 * p.2).sum - d * x.sum - c * y.sum
        + x.length * (c * d) := by
  induction x generalizing y with
  | nil => cases y with
    | nil => simp
    | cons b t => simp at h
  | cons a t ih =>
    cases y with
    | nil => simp at h
    | cons b u =>
      simp at h
      simp [ih u h]
      ring

theorem residSum_expand (x y : List ℚ) (a b : ℚ) (h : x.length = y.length) :
    residSum x y a b = y.sum - a * x.sum - x.length * b := by
  induction x generalizing y with
  | nil => cases y with
    | nil => simp [residSum]
    | cons v t => simp at h
  | cons v t ih =>
    cases y with
    | nil => simp at h
    | cons w u =>
      simp at h
      simp [residSum] at ih ⊢
      rw [ih u h]
      ring

theorem residDotX_expand (x y : List ℚ) (a b : ℚ) (h : x.length = y.length) :
    residDotX x y a b
      = ((x.zip y).map fun p => p.1 * p.2).sum - a * (x.map fun t => t^2).sum
        - b * x.sum := by
  induction x generalizing y with
  | nil => cases y with
    | nil => simp [residDotX]
    | cons v t => simp at h
  | cons v t ih =>
    cases y with
    | nil => simp at h
    | cons w u =>
      simp at h
      simp [residDotX] at ih ⊢
      rw [ih u h]
      ring

theorem sum_eq_mean (l : List ℚ) (h : ((l.length : ℕ) : ℚ) ≠ 0) :
    l.sum = l.length * listMean l := by
  unfold listMean; field_simp

theorem normal_equations (x y : List ℚ) (a b : ℚ) (hlen : x.length = y.length)
    (hn : ((x.length : ℕ) : ℚ) ≠ 0)
    (ha : a * sxx x = sxy x y) (hb : b = listMean y - a * listMean x) :
    residSum x y a b = 0 ∧ residDotX x y a b = 0 := by
  have hcast : ((y.length : ℕ) : ℚ) = ((x.length : ℕ) : ℚ) := by rw [hlen]
  have hX := sum_eq_mean x hn
  have hY := sum_eq_mean y (by rw [hcast]; exact hn)
  rw [hcast] at hY
  have e1 : sxy x y = ((x.zip y).map fun p => p.1 * p.2).sum
      - listMean y * x.sum - listMean x * y.sum
      + x.length * (listMean x * listMean y) :=
    prod_expand x y (listMean x) (listMean y) hlen
  have e2 : sxx x = (x.map fun t => t^2).sum - 2 * listMean x * x.sum
      + x.length * (listMean x)^2 := sq_expand x (listMean x)
  have hP : ((x.zip y).map fun p => p.1 * p.2).sum
      = sxy x y + (x.length : ℚ) * (listMean x * listMean y) := by
    linear_combination (-1) * e1 + listMean y * hX + listMean x * hY
  have hQ : (x.map fun t => t^2).sum
      = sxx x + (x.length : ℚ) * (listMean x)^2 := by
    linear_combination (-1) * e2 + 2 * listMean x * hX
  constructor
  · rw [residSum_expand _ _ _ _ hlen, hb, hX, hY]
    ring
  · rw [residDotX_expand _ _ _ _ hlen, hP, hQ, hb, hX]
    linear_combination (-1) * ha

/-- Claim C9: `linearTrend` returns None on fewer than 2 points, and
otherwise the slope and intercept of the ordinary least-squares fit of
`y = slope*x + intercept` (characterized by the two normal equations of
the least-squares problem); on (1,2),(2,4),(3,6) it returns
slope 2, intercept 0. -/
theorem linearTrend_spec (x y : List ℚ) (hlen : x.length = y.length) :
    (x.length < 2 → linear_regression_line x y = none)
    ∧ (2 ≤ x.length → sxx x ≠ 0 →
        ∃ a b, linear_regression_line x y = some (a, b)
          ∧ residSum x y a b = 0 ∧ residDotX x y a b = 0)
    ∧ linear_regression_line [1, 2, 3] [2, 4, 6] = some (2, 0) := by
  refine ⟨?_, ?_, ?_⟩
  · intro h; unfold linear_regression_line; rw [if_pos h]
  · intro h2 hsxx
    have hn : ((x.length : ℕ) : ℚ) ≠ 0 := Nat.cast_ne_zero.mpr (by omega)
    refine ⟨sxy x y / sxx x, listMean y - (sxy x y / sxx x) * listMean x, ?_, ?_⟩
    · unfold linear_regression_line; rw [if_neg (by omega), if_neg hsxx]
    · exact normal_equations x y _ _ hlen hn (div_mul_cancel₀ _ hsxx) rfl
  · norm_num [linear_regression_line, sxx, sxy, listMean]

theorem linearTrend_spec_witness :
    linear_regression_line [1, 2, 3] [2, 4, 6] = some (2, 0)
    ∧ (∃ a b, linear_regression_line [1, 2, 3] [2, 4, 6] = some (a, b)
        ∧ residSum [1, 2, 3] [2, 4, 6] a b = 0
        ∧ residDotX [1, 2, 3] [2, 4, 6] a b = 0)
    ∧ linear_regression_line [(1 : ℚ)] [2] = none :=
  ⟨(linearTrend_spec [1, 2, 3] [2, 4, 6] rfl).2.2,
   (linearTrend_spec [1, 2, 3] [2, 4, 6] rfl).2.1 (by norm_num)
     (by norm_num [sxx, listMean]),
   (linearTrend_spec [(1 : ℚ)] [2] rfl).1 (by norm_num)⟩

theorem diffRows_getD (l : List (ℤ × ℚ × ℚ)) (i : ℕ) (h : i + 1 < l.length) :
    (diffRows l).getD i default =
      ⟨(l.getD (i+1) default).1, (l.getD (i+1) default).2.1,
       (l.getD (i+1) default).2.2,
       (l.getD (i+1) default).2.2 - (l.getD i default).2.2⟩ := by
  have hlen : i < (diffRows l).length := by
    simp [diffRows, List.length_zip]
    omega
  rw [List.getD_eq_getElem _ _ hlen, List.getD_eq_getElem _ _ h,
    List.getD_eq_getElem _ _ (by omega : i < l.length)]
  simp [diffRows, List.getElem_zip, List.getElem_tail]

/-- Claim C3: `calorieVsWeightData` drops calorie-missing entries and
returns None below 14 remaining entries; it buckets the rest into
calendar weeks, aggregates per-week means, diffs them week over week,
drops the first week, and returns None unless at least 2 weekly rows
remain — equivalently, the result is None iff there are fewer than 14
calorie-bearing entries or fewer than 3 non-empty weeks; 13
calorie-bearing entries yield None, and ≥14 entries over ≥3 weeks yield
≥2 rows whose weight_change is the first difference of consecutive
weekly mean weights. -/
theorem calorieVsWeightData_spec (entries : List Entry) :
    (calc_calorie_vs_weight_data entries = none ↔
      (calBearing entries).length < 14 ∨ (weeksOf (dfCal entries)).length < 3)
    ∧ (∀ rows, calc_calorie_vs_weight_data entries = some rows →
        2 ≤ rows.length
        ∧ rows.length + 1 = (weeksOf (dfCal entries)).length
        ∧ (∀ i, i + 1 < (weeklyAgg (dfCal entries)).length →
            rows.getD i default =
              ⟨((weeklyAgg (dfCal entries)).getD (i+1) default).1,
               ((weeklyAgg (dfCal entries)).getD (i+1) default).2.1,
               ((weeklyAgg (dfCal entries)).getD (i+1) default).2.2,
               ((weeklyAgg (dfCal entries)).getD (i+1) default).2.2
                 - ((weeklyAgg (dfCal entries)).getD i default).2.2⟩))
    ∧ (14 ≤ (calBearing entries).length → 3 ≤ (weeksOf (dfCal entries)).length →
        ∃ rows, calc_calorie_vs_weight_data entries = some rows ∧ 2 ≤ rows.length) := by
  have hdf : (dfCal entries).length = (calBearing entries).length :=
    (List.perm_insertionSort _ _).length_eq
  have hagg : (weeklyAgg (dfCal entries)).length = (weeksOf (dfCal entries)).length := by
    simp [weeklyAgg]
  have hdiff : (diffRows (weeklyAgg (dfCal entries))).length
      = (weeklyAgg (dfCal entries)).length - 1 := by
    simp [diffRows, List.length_zip]
  have hiff : calc_calorie_vs_weight_data entries = none ↔
      (calBearing entries).length < 14 ∨ (weeksOf (dfCal entries)).length < 3 := by
    unfold calc_calorie_vs_weight_data
    by_cases h14 : (dfCal entries).length < 14
    · rw [if_pos h14]; simp; omega
    · rw [if_neg h14]
      by_cases h2 : (weeklyAgg (dfCal entries)).length < 2
      · rw [if_pos h2]; simp; omega
      · rw [if_neg h2]
        by_cases h3 : (diffRows (weeklyAgg (dfCal entries))).length < 2
        · rw [if_pos h3]; simp; omega
        · rw [if_neg h3]; simp; omega
  have hsome : ∀ rows, calc_calorie_vs_weight_data entries = some rows →
      2 ≤ rows.length
      ∧ rows.length + 1 = (weeksOf (dfCal entries)).length
      ∧ (∀ i, i + 1 < (weeklyAgg (dfCal entries)).length →
          rows.getD i default =
            ⟨((weeklyAgg (dfCal entries)).getD (i+1) default).1,
             ((weeklyAgg (dfCal entries)).getD (i+1) default).2.1,
             ((weeklyAgg (dfCal entries)).getD (i+1) default).2.2,
             ((weeklyAgg (dfCal entries)).getD (i+1) default).2.2
               - ((weeklyAgg (dfCal entries)).getD i default).2.2⟩) := by
    intro rows hrows
    unfold calc_calorie_vs_weight_data at hrows
    split_ifs at hrows with h14 h2 h3
    obtain rfl : diffRows (weeklyAgg (dfCal entries)) = rows := Option.some_inj.mp hrows
    refine ⟨by omega, by omega, ?_⟩
    intro i hi
    exact diffRows_getD _ i hi
  refine ⟨hiff, hsome, ?_⟩
  intro h14 h3w
  cases hres : calc_calorie_vs_weight_data entries with
  | none =>
    rw [hiff] at hres
    omega
  | some rows =>
    exact ⟨rows, rfl, (hsome rows hres).1⟩

theorem calorieVsWeightData_spec_witness :
    ∃ rows, calc_calorie_vs_weight_data sample14 = some rows
      ∧ 2 ≤ rows.length
      ∧ rows.length + 1 = (weeksOf (dfCal sample14)).length := by
  obtain ⟨rows, hrows, h2⟩ :=
    (calorieVsWeightData_spec sample14).2.2 (by decide) (by decide)
  exact ⟨rows, hrows, h2, ((calorieVsWeightData_spec sample14).2.1 rows hrows).2.1⟩
theorem insertOrReplace_inv (u d : String) (w c : Option ℚ) (s : Store)
    (h : StoreInv s) : StoreInv (insertOrReplace u d w c s) := by
  obtain ⟨hk, hid, hlt⟩ := h
  have hrows : (insertOrReplace u d w c s).rows
      = (s.rows.filter fun e => decide (¬(e.username = u ∧ e.date = d)))
        ++ [⟨s.nextId, u, d, w, c⟩] := rfl
  have hnext : (insertOrReplace u d w c s).nextId = s.nextId + 1 := rfl
  refine ⟨?_, ?_, ?_⟩
  · rw [hrows, List.pairwise_append]
    refine ⟨hk.filter _, List.pairwise_singleton _ _, ?_⟩
    intro a ha b hb
    rw [List.mem_filter] at ha
    rw [List.mem_singleton] at hb
    subst hb
    have hne := ha.2
    simp at hne
    intro hcon
    unfold entryKey at hcon
    simp at hcon
    rcases hne with h1 | h1
    · exact h1 hcon.1
    · exact h1 hcon.2
  · rw [hrows, List.pairwise_append]
    refine ⟨hid.filter _, List.pairwise_singleton _ _, ?_⟩
    intro a ha b hb
    rw [List.mem_filter] at ha
    rw [List.mem_singleton] at hb
    subst hb
    have := hlt a ha.1
    simp
    omega
  · intro e he
    rw [hrows, List.mem_append] at he
    rw [hnext]
    rcases he with he | he
    · rw [List.mem_filter] at he
      have := hlt e he.1
      omega
    · rw [List.mem_singleton] at he
      subst he
      simp

theorem delete_inv (eid : ℕ) (s : Store) (h : StoreInv s) :
    StoreInv (delete_entry eid s) := by
  obtain ⟨hk, hid, hlt⟩ := h
  refine ⟨hk.filter _, hid.filter _, ?_⟩
  intro e he
  rw [delete_entry] at he ⊢
  rw [List.mem_filter] at he
  exact hlt e he.1

theorem unique_by_id (l : List DBEntry)
    (h : l.Pairwise (fun a b => a.id ≠ b.id)) :
    ∀ a ∈ l, ∀ b ∈ l, a.id = b.id → a = b := by
  induction l with
  | nil => intro a ha; simp at ha
  | cons c t ih =>
    rw [List.pairwise_cons] at h
    intro a ha b hb heq
    rcases List.mem_cons.mp ha with ha1 | ha1 <;>
      rcases List.mem_cons.mp hb with hb1 | hb1
    · rw [ha1, hb1]
    · subst ha1; exact absurd heq (h.1 b hb1)
    · subst hb1; exact absurd heq.symm (h.1 a ha1)
    · exact ih h.2 a ha1 b hb1 heq

theorem update_inv (eid : ℕ) (d : String) (w : ℚ) (c : Option ℚ) (s : Store)
    (h : StoreInv s) : StoreInv (update_entry eid d w c s) := by
  obtain ⟨hk, hid, hlt⟩ := h
  cases hfind : s.rows.find? (fun e => decide (e.id = eid)) with
  | none =>
    have hred : update_entry eid d w c s = s := by
      unfold update_entry; rw [hfind]
    rw [hred]; exact ⟨hk, hid, hlt⟩
  | some e0 =>
    by_cases hcon : ∃ e' ∈ s.rows, e'.id ≠ eid ∧ e'.username = e0.username ∧ e'.date = d
    · have hred : update_entry eid d w c s = s := by
        unfold update_entry; rw [hfind]; exact if_pos hcon
      rw [hred]; exact ⟨hk, hid, hlt⟩
    · have he0 : e0 ∈ s.rows := List.mem_of_find?_eq_some hfind
      have he0id : e0.id = eid := by
        have := List.find?_some hfind
        simpa using this
      have hred : update_entry eid d w c s
          = ⟨s.rows.map fun e =>
              if e.id = eid then ⟨e.id, e.username, d, some w, c⟩ else e,
             s.nextId⟩ := by
        unfold update_entry; rw [hfind]; exact if_neg hcon
      rw [hred]
      have hfid : ∀ e : DBEntry,
          (if e.id = eid then
            (⟨e.id, e.username, d, some w, c⟩ : DBEntry) else e).id = e.id := by
        intro e; split <;> rfl
      refine ⟨?_, ?_, ?_⟩
      · rw [List.pairwise_map]
        refine (hk.and hid).imp_of_mem ?_
        intro a b ha hb hab
        obtain ⟨hkey, hidne⟩ := hab
        by_cases haid : a.id = eid <;> by_cases hbid : b.id = eid
        · exact absurd (haid.trans hbid.symm) hidne
        · have haeq : a = e0 :=
            unique_by_id s.rows hid a ha e0 he0 (by rw [haid, he0id])
          rw [if_pos haid, if_neg hbid]
          intro hc
          unfold entryKey at hc
          simp at hc
          refine hcon ⟨b, hb, hbid, ?_, hc.2.symm⟩
          rw [← hc.1, haeq]
        · have hbeq : b = e0 :=
            unique_by_id s.rows hid b hb e0 he0 (by rw [hbid, he0id])
          rw [if_neg haid, if_pos hbid]
          intro hc
          unfold entryKey at hc
          simp at hc
          refine hcon ⟨a, ha, haid, ?_, hc.2⟩
          rw [hc.1, hbeq]
        · rw [if_neg haid, if_neg hbid]
          exact hkey
      · rw [List.pairwise_map]
        refine hid.imp_of_mem ?_
        intro a b _ _ hab
        rw [hfid, hfid]
        exact hab
      · intro e he
        rw [List.mem_map] at he
        obtain ⟨a, ha, rfl⟩ := he
        rw [hfid]
        exact hlt a ha

theorem import_inv (u : String) (rows : List CsvRow) (s : Store)
    (h : StoreInv s) : StoreInv (import_csv u rows s) := by
  induction rows generalizing s with
  | nil => exact h
  | cons r t ih =>
    exact ih _ (insertOrReplace_inv _ _ _ _ _ h)

theorem reachable_inv (s : Store) (h : Reachable s) : StoreInv s := by
  induction h with
  | init => exact ⟨List.Pairwise.nil, List.Pairwise.nil, by intro e he; simp [emptyStore] at he⟩
  | save u d w c s _ ih => exact insertOrReplace_inv _ _ _ _ _ ih
  | update eid d w c s _ ih => exact update_inv _ _ _ _ _ ih
  | delete eid s _ ih => exact delete_inv _ _ ih
  | importRows u rows s _ ih => exact import_inv _ _ _ ih

theorem save_filter (s : Store) (u d : String) (w : ℚ) (c : Option ℚ) :
    (save_entry u d w c s).rows.filter (fun e => decide (entryKey e = (u, d)))
      = [⟨s.nextId, u, d, some w, c⟩] := by
  unfold save_entry insertOrReplace
  rw [List.filter_append, List.filter_filter]
  have h1 : s.rows.filter (fun e =>
      decide (entryKey e = (u, d)) && decide (¬(e.username = u ∧ e.date = d))) = [] := by
    rw [List.filter_eq_nil_iff]
    intro e _
    unfold entryKey
    by_cases h1 : e.username = u <;> by_cases h2 : e.date = d <;> simp [h1, h2]
  rw [h1]
  simp [entryKey]

theorem userRows_insertOrReplace_same (u d : String) (w c : Option ℚ) (s : Store) :
    userRows u (insertOrReplace u d w c s)
      = (userRows u s).filter (fun e => decide (¬ e.date = d))
        ++ [⟨s.nextId, u, d, w, c⟩] := by
  unfold userRows insertOrReplace
  rw [List.filter_append, List.filter_filter, List.filter_filter]
  congr 1
  · apply List.filter_congr
    intro e _
    by_cases h1 : e.username = u <;> by_cases h2 : e.date = d <;> simp [h1, h2]
  · simp

theorem userSeries_insertOrReplace_same (u d : String) (w c : Option ℚ) (s : Store) :
    userSeries u (insertOrReplace u d w c s)
      = (userSeries u s).filter (fun p => decide (¬ p.1 = d)) ++ [(d, w, c)] := by
  unfold userSeries
  rw [userRows_insertOrReplace_same, List.map_append]
  congr 1
  rw [List.filter_map]
  rfl

theorem userSeries_import (u : String) (rows : List CsvRow) (s : Store)
    (hnd : (rows.map rowDateStr).Nodup) :
    userSeries u (import_csv u rows s)
      = (userSeries u s).filter
          (fun p => decide (¬ p.1 ∈ rows.map rowDateStr))
        ++ rows.map (fun r => (rowDateStr r, r.weight_lbs, r.calories)) := by
  induction rows generalizing s with
  | nil => simp [import_csv]
  | cons r t ih =>
    have hnd2 : (t.map rowDateStr).Nodup := by
      simp only [List.map_cons, List.nodup_cons] at hnd
      exact hnd.2
    have hnd1 : rowDateStr r ∉ t.map rowDateStr := by
      simp only [List.map_cons, List.nodup_cons] at hnd
      exact hnd.1
    rw [show import_csv u (r :: t) s
        = import_csv u t (insertOrReplace u (rowDateStr r) r.weight_lbs r.calories s)
      from rfl]
    rw [ih _ hnd2, userSeries_insertOrReplace_same, List.filter_append]
    have hsingle : ([((rowDateStr r : String), r.weight_lbs, r.calories)]).filter
        (fun p => decide (¬ p.1 ∈ t.map rowDateStr))
        = [((rowDateStr r : String), r.weight_lbs, r.calories)] := by
      simp
      intro x hx hcon
      exact hnd1 (List.mem_map.mpr ⟨x, hx, hcon⟩)
    have hff : ((userSeries u s).filter (fun p => decide (¬ p.1 = rowDateStr r))).filter
          (fun p => decide (¬ p.1 ∈ t.map rowDateStr))
        = (userSeries u s).filter
          (fun p => decide (¬ p.1 ∈ (r :: t).map rowDateStr)) := by
      rw [List.filter_filter]
      apply List.filter_congr
      intro p _
      by_cases h1 : p.1 = rowDateStr r <;> by_cases h2 : p.1 ∈ t.map rowDateStr <;>
        simp [h1, h2]
    rw [hsingle, hff, List.map_cons, List.append_assoc]
    rfl

theorem export_map_rowDateStr (u : String) (s : Store) :
    (export_csv u s).map rowDateStr
      = (sortRowsByDate (userRows u s)).map (fun e => e.date) := by
  unfold export_csv
  rw [List.map_map]
  rfl

/-- Claim C5: for a non-empty user series with no duplicate dates,
importing the CSV produced by exporting that series reproduces the same
series up to row order, including the distinction between missing and
zero calories (both `Option ℚ` values round-trip unchanged). -/
theorem export_import_roundtrip (u : String) (s : Store)
    (_hne : userRows u s ≠ [])
    (hdates : (userRows u s).Pairwise (fun a b => a.date ≠ b.date)) :
    (userSeries u (import_csv u (export_csv u s) s)).Perm (userSeries u s) := by
  have hperm : (sortRowsByDate (userRows u s)).Perm (userRows u s) :=
    List.perm_insertionSort _ _
  have hnodup : ((export_csv u s).map rowDateStr).Nodup := by
    rw [export_map_rowDateStr]
    show ((sortRowsByDate (userRows u s)).map (fun e => e.date)).Pairwise (· ≠ ·)
    rw [List.pairwise_map]
    exact (hperm.pairwise_iff (fun hab => hab.symm)).mpr hdates
  rw [userSeries_import u _ s hnodup]
  have hfilter : (userSeries u s).filter
      (fun p => decide (¬ p.1 ∈ (export_csv u s).map rowDateStr)) = [] := by
    rw [List.filter_eq_nil_iff]
    intro p hp
    unfold userSeries at hp
    rw [List.mem_map] at hp
    obtain ⟨e, he, rfl⟩ := hp
    rw [export_map_rowDateStr]
    simp only [decide_not, Bool.not_eq_true', decide_eq_false_iff_not, not_not]
    rw [List.mem_map]
    exact ⟨e, hperm.mem_iff.mpr he, rfl⟩
  rw [hfilter, List.nil_append]
  unfold export_csv userSeries
  rw [List.map_map]
  exact hperm.map _

theorem import_nextId (u : String) (rows : List CsvRow) (s : Store) :
    (import_csv u rows s).nextId = s.nextId + rows.length := by
  induction rows generalizing s with
  | nil => rfl
  | cons r t ih =>
    rw [show import_csv u (r :: t) s
        = import_csv u t (insertOrReplace u (rowDateStr r) r.weight_lbs r.calories s)
      from rfl]
    rw [ih]
    simp [insertOrReplace]
    omega

theorem import_date_preserved (u d : String) (rows : List CsvRow) (s : Store)
    (h : ∃ e ∈ s.rows, e.username = u ∧ e.date = d) :
    ∃ e ∈ (import_csv u rows s).rows, e.username = u ∧ e.date = d := by
  induction rows generalizing s with
  | nil => exact h
  | cons r t ih =>
    rw [show import_csv u (r :: t) s
        = import_csv u t (insertOrReplace u (rowDateStr r) r.weight_lbs r.calories s)
      from rfl]
    apply ih
    obtain ⟨e, he, hu, hd⟩ := h
    by_cases hdr : d = rowDateStr r
    · refine ⟨⟨s.nextId, u, rowDateStr r, r.weight_lbs, r.calories⟩, ?_, rfl, hdr.symm⟩
      unfold insertOrReplace
      simp
    · refine ⟨e, ?_, hu, hd⟩
      unfold insertOrReplace
      rw [List.mem_append, List.mem_filter]
      left
      refine ⟨he, ?_⟩
      simp
      right
      rw [hd]
      exact hdr

/-- Claim C4 (amended): `importCsv` upserts exactly one store entry
per CSV row — the AUTOINCREMENT counter advances once per row — and
never skips or aborts: every row, parsable date or not, ends up
represented in the store under its stringified date. -/
theorem importCsv_upserts_all (u : String) (rows : List CsvRow) (s : Store) :
    (import_csv u rows s).nextId = s.nextId + rows.length
    ∧ ∀ r ∈ rows, ∃ e ∈ (import_csv u rows s).rows,
        e.username = u ∧ e.date = rowDateStr r := by
  refine ⟨import_nextId u rows s, ?_⟩
  intro r hr
  obtain ⟨l1, l2, rfl⟩ := List.append_of_mem hr
  rw [show import_csv u (l1 ++ r :: l2) s
      = import_csv u l2 (insertOrReplace u (rowDateStr r) r.weight_lbs r.calories
          (import_csv u l1 s)) from by
    unfold import_csv
    rw [List.foldl_append]
    rfl]
  apply import_date_preserved
  refine ⟨⟨(import_csv u l1 s).nextId, u, rowDateStr r, r.weight_lbs, r.calories⟩, ?_, rfl, rfl⟩
  unfold insertOrReplace
  simp

/-- Counterexample to claim C4 as stated: a CSV row with a missing
(hence unparsable) date cell is NOT skipped — `import_csv` stores it
with the stringified date `"nan"`, so the store does change. -/
theorem importCsv_no_skip_cex :
    import_csv "alice" [⟨none, none, none⟩] emptyStore ≠ emptyStore
    ∧ (import_csv "alice" [⟨none, none, none⟩] emptyStore).rows.map
        (fun e => e.date) = ["nan"] := by
  constructor
  · intro hcon
    have h1 : (import_csv "alice" [⟨none, none, none⟩] emptyStore).rows.length
        = emptyStore.rows.length := by rw [hcon]
    simp [import_csv, insertOrReplace, emptyStore] at h1
  · rfl

/-- Claim C6: every store state reachable through the Data Store
operations has at most one entry per `(username, date)` pair, and
`save_entry` on an existing `(username, date)` replaces the entry: the
rows matching that key afterwards are exactly the single new row. -/
theorem entries_unique_per_user_date (s : Store) (h : Reachable s) :
    s.rows.Pairwise (fun a b => entryKey a ≠ entryKey b)
    ∧ ∀ u d w c,
        (save_entry u d w c s).rows.filter
            (fun e => decide (entryKey e = (u, d)))
          = [⟨s.nextId, u, d, some w, c⟩] :=
  ⟨(reachable_inv s h).1, fun u d w c => save_filter s u d w c⟩
/-! ## Claim theorems -/

/-- Claim C1: `weeklyWeightChange` returns None on fewer than 2 entries;
otherwise, after sorting by date, it returns exactly 0 when the span
between first and last date is zero days, and otherwise
`(last_weight - first_weight) / (span_days / 7)` rounded to 2 decimal
places; entries (day 0, 150 lb) and (day 14, 148 lb) yield -1.0. -/
theorem weeklyWeightChange_spec (entries : List Entry) :
    (entries.length < 2 → calc_weekly_weight_change entries = none)
    ∧ (2 ≤ entries.length → totalDays entries = 0 →
        calc_weekly_weight_change entries = some 0)
    ∧ (2 ≤ entries.length → totalDays entries ≠ 0 →
        calc_weekly_weight_change entries =
          some (round2 (totalChange entries / ((totalDays entries : ℚ) / 7))))
    ∧ calc_weekly_weight_change [⟨0, 150, none⟩, ⟨14, 148, none⟩] = some (-1) := by
  refine ⟨?_, ?_, ?_, by
    norm_num [calc_weekly_weight_change, totalDays, totalChange, sortByDate,
      List.insertionSort, List.orderedInsert, List.getLastI, List.getLastD,
      List.headI, round2, roundHalfEven]⟩
  · intro h; unfold calc_weekly_weight_change; rw [if_pos h]
  · intro h2 hspan
    unfold calc_weekly_weight_change
    rw [if_neg (by omega), if_pos hspan]
  · intro h2 hspan
    unfold calc_weekly_weight_change
    rw [if_neg (by omega), if_neg hspan]

theorem weeklyWeightChange_spec_witness :
    calc_weekly_weight_change [⟨0, 150, none⟩] = none
    ∧ calc_weekly_weight_change [⟨0, 150, none⟩, ⟨0, 148, none⟩] = some 0
    ∧ calc_weekly_weight_change [⟨0, 150, none⟩, ⟨14, 148, none⟩] =
        some (round2 (totalChange [⟨0, 150, none⟩, ⟨14, 148, none⟩] /
          ((totalDays [⟨0, 150, none⟩, ⟨14, 148, none⟩] : ℚ) / 7))) :=
  ⟨(weeklyWeightChange_spec [⟨0, 150, none⟩]).1 (by decide),
   (weeklyWeightChange_spec [⟨0, 150, none⟩, ⟨0, 148, none⟩]).2.1 (by decide) (by decide),
   (weeklyWeightChange_spec [⟨0, 150, none⟩, ⟨14, 148, none⟩]).2.2.1 (by decide) (by decide)⟩

/-- Claim C2: `estimateMaintenanceCalories` returns None when fewer than 2
calorie-bearing entries; otherwise it returns
`round(mean_calories - weeklyChange * 3500 / 7)` where the mean is over
calorie-bearing entries only and the weekly change is computed over the
full, unfiltered series. -/
theorem estimateMaintenanceCalories_spec (entries : List Entry) :
    ((calBearing entries).length < 2 → estimate_maintenance_calories entries = none)
    ∧ (2 ≤ (calBearing entries).length →
        ∃ wc, calc_weekly_weight_change entries = some wc
          ∧ estimate_maintenance_calories entries =
              some (roundHalfEven (avgCalories entries - wc * 3500 / 7))) := by
  constructor
  · intro h; unfold estimate_maintenance_calories; rw [if_pos h]
  · intro h2
    have hlen : 2 ≤ entries.length := le_trans h2 (calBearing_length_le entries)
    obtain ⟨wc, hwc⟩ := weekly_isSome entries hlen
    refine ⟨wc, hwc, ?_⟩
    unfold estimate_maintenance_calories
    rw [if_neg (by omega), hwc]

theorem estimateMaintenanceCalories_spec_witness :
    (calBearing [(⟨0, 150, none⟩ : Entry)]).length < 2
      ∧ estimate_maintenance_calories [(⟨0, 150, none⟩ : Entry)] = none :=
  ⟨by decide, (estimateMaintenanceCalories_spec [⟨0, 150, none⟩]).1 (by decide)⟩

/-- Claim C7: `trendDirection` returns "Insufficient Data" on None, "Losing"
strictly below -0.1, "Gaining" strictly above 0.1, and "Maintaining"
otherwise, with the boundaries ±0.1 classified as "Maintaining";
concrete values -1.0, 0.05, 0.1 and 0.1001 classify as stated. -/
theorem trendDirection_spec :
    get_trend_direction none = "Insufficient Data"
    ∧ (∀ w : ℚ, w < -(1/10) → get_trend_direction (some w) = "Losing")
    ∧ (∀ w : ℚ, 1/10 < w → get_trend_direction (some w) = "Gaining")
    ∧ (∀ w : ℚ, -(1/10) ≤ w → w ≤ 1/10 → get_trend_direction (some w) = "Maintaining")
    ∧ get_trend_direction (some (-1)) = "Losing"
    ∧ get_trend_direction (some (1/20)) = "Maintaining"
    ∧ get_trend_direction (some (1/10)) = "Maintaining"
    ∧ get_trend_direction (some (1001/10000)) = "Gaining" := by
  have hl : ∀ w : ℚ, w < -(1/10) → get_trend_direction (some w) = "Losing" := by
    intro w h
    simp only [get_trend_direction]
    rw [if_pos h]
  have hg : ∀ w : ℚ, 1/10 < w → get_trend_direction (some w) = "Gaining" := by
    intro w h
    have h1 : ¬ w < -(1/10) := by linarith
    simp only [get_trend_direction]
    rw [if_neg h1, if_pos h]
  have hm : ∀ w : ℚ, -(1/10) ≤ w → w ≤ 1/10 →
      get_trend_direction (some w) = "Maintaining" := by
    intro w h1 h2
    simp only [get_trend_direction]
    rw [if_neg (not_lt.mpr h1), if_neg (not_lt.mpr h2)]
  exact ⟨rfl, hl, hg, hm, hl _ (by norm_num), hm _ (by norm_num) (by norm_num),
    hm _ (by norm_num) (by norm_num), hg _ (by norm_num)⟩

theorem trendDirection_spec_witness :
    get_trend_direction (some (-1)) = "Losing"
    ∧ get_trend_direction (some (1001/10000)) = "Gaining"
    ∧ get_trend_direction (some (1/10)) = "Maintaining" :=
  ⟨trendDirection_spec.2.1 (-1) (by norm_num),
   trendDirection_spec.2.2.1 (1001/10000) (by norm_num),
   trendDirection_spec.2.2.2.1 (1/10) (by norm_num) (by norm_num)⟩

/-- Claim C8: `rollingAverage` returns a sequence aligned with the input,
whose value at each index is the mean weight over the trailing `window`
entries ending at that index, using however many entries are available
(minimum 1) before a full window exists; with window=7 a 3-point series
yields the cumulative means of the available points, with no padding. -/
theorem rollingAverage_spec (weights : List ℚ) (window : ℕ) (hw : 1 ≤ window) :
    (calc_rolling_average weights window).length = weights.length
    ∧ (∀ i, i < weights.length →
        (calc_rolling_average weights window).getD i 0 =
          (∑ j ∈ Finset.range (min window (i + 1)), weights.getD (i - j) 0)
            / ((min window (i + 1) : ℕ) : ℚ))
    ∧ (∀ a b c : ℚ,
        calc_rolling_average [a, b, c] 7 = [a, (a + b) / 2, (a + b + c) / 3]) := by
  refine ⟨by simp [calc_rolling_average], ?_, ?_⟩
  · intro i hi
    have hlen : i < (calc_rolling_average weights window).length := by
      simp [calc_rolling_average]; omega
    rw [List.getD_eq_getElem _ _ hlen]
    have h1 : (calc_rolling_average weights window)[i] =
        listMean ((weights.take (i + 1)).drop (i + 1 - window)) := by
      simp [calc_rolling_average]
    rw [h1]
    unfold listMean
    rw [seg_sum weights (i + 1 - window) (min window (i + 1)) (i + 1)
      (by omega) (by omega)]
    have hrefl : ∑ j ∈ Finset.range (min window (i + 1)),
          weights.getD ((i + 1 - window) + j) 0
        = ∑ j ∈ Finset.range (min window (i + 1)), weights.getD (i - j) 0 := by
      calc ∑ j ∈ Finset.range (min window (i + 1)),
            weights.getD ((i + 1 - window) + j) 0
          = ∑ j ∈ Finset.range (min window (i + 1)),
              weights.getD (i - (min window (i + 1) - 1 - j)) 0 := by
            apply Finset.sum_congr rfl
            intro j hj
            rw [Finset.mem_range] at hj
            congr 1
            omega
        _ = ∑ j ∈ Finset.range (min window (i + 1)), weights.getD (i - j) 0 :=
            Finset.sum_range_reflect (fun j => weights.getD (i - j) 0)
              (min window (i + 1))
    rw [hrefl]
    congr 1
    have h2 : ((weights.take (i + 1)).drop (i + 1 - window)).length
        = min window (i + 1) := by
      simp [List.length_drop, List.length_take]; omega
    rw [h2]
  · intro a b c
    simp [calc_rolling_average, listMean, show List.range 3 = [0, 1, 2] from rfl]
    ring

theorem rollingAverage_spec_witness :
    calc_rolling_average [150, 152, 151] 7 = [150, 151, 151]
    ∧ (calc_rolling_average [150, 152, 151] 7).getD 1 0 =
        (∑ j ∈ Finset.range (min 7 (1 + 1)), ([150, 152, 151] : List ℚ).getD (1 - j) 0)
          / ((min 7 (1 + 1) : ℕ) : ℚ) := by
  constructor
  · have h := (rollingAverage_spec [150, 152, 151] 7 (by norm_num)).2.2 150 152 151
    rw [h]
    norm_num
  · exact (rollingAverage_spec [150, 152, 151] 7 (by norm_num)).2.1 1 (by norm_num)

/-- Claim C10: `estimate_maintenance_calories` returns None iff the series
has fewer than 2 calorie-bearing entries; the internal branch guarding
against `calc_weekly_weight_change` returning None is unreachable,
because ≥2 calorie-bearing entries force ≥2 entries overall, under
which the weekly change is always defined. -/
theorem maintenance_none_iff (entries : List Entry) :
    (estimate_maintenance_calories entries = none ↔ (calBearing entries).length < 2)
    ∧ (2 ≤ (calBearing entries).length →
        (calc_weekly_weight_change entries).isSome) := by
  have hbranch : 2 ≤ (calBearing entries).length →
      (calc_weekly_weight_change entries).isSome := by
    intro h2
    obtain ⟨wc, hwc⟩ :=
      weekly_isSome entries (le_trans h2 (calBearing_length_le entries))
    rw [hwc]; rfl
  refine ⟨⟨?_, ?_⟩, hbranch⟩
  · intro hnone
    by_contra hge
    push_neg at hge
    obtain ⟨wc, hwc⟩ :=
      weekly_isSome entries (le_trans hge (calBearing_length_le entries))
    unfold estimate_maintenance_calories at hnone
    rw [if_neg (by omega), hwc] at hnone
    exact Option.noConfusion hnone
  · intro h
    unfold estimate_maintenance_calories
    rw [if_pos h]

theorem maintenance_none_iff_witness :
    estimate_maintenance_calories [(⟨0, 150, some 2000⟩ : Entry)] = none
    ∧ (calc_weekly_weight_change
        [(⟨0, 150, some 2000⟩ : Entry), ⟨14, 148, some 2100⟩]).isSome :=
  ⟨(maintenance_none_iff [⟨0, 150, some 2000⟩]).1.mpr (by decide),
   (maintenance_none_iff [⟨0, 150, some 2000⟩, ⟨14, 148, some 2100⟩]).2 (by decide)⟩


theorem importCsv_upserts_all_witness :
    (import_csv "alice" [⟨some "2024-01-01", some 150, none⟩] emptyStore).nextId
        = emptyStore.nextId + 1
    ∧ ∃ e ∈ (import_csv "alice" [⟨some "2024-01-01", some 150, none⟩] emptyStore).rows,
        e.username = "alice"
          ∧ e.date = rowDateStr ⟨some "2024-01-01", some 150, none⟩ :=
  ⟨(importCsv_upserts_all "alice" [⟨some "2024-01-01", some 150, none⟩] emptyStore).1,
   (importCsv_upserts_all "alice" [⟨some "2024-01-01", some 150, none⟩] emptyStore).2
     ⟨some "2024-01-01", some 150, none⟩ (List.mem_singleton.mpr rfl)⟩

theorem export_import_roundtrip_witness :
    (userSeries "alice" (import_csv "alice" (export_csv "alice" store2) store2)).Perm
      (userSeries "alice" store2) :=
  export_import_roundtrip "alice" store2 (by decide) (by decide)

theorem entries_unique_per_user_date_witness :
    (save_entry "alice" "2024-01-01" 150 none emptyStore).rows.Pairwise
        (fun a b => entryKey a ≠ entryKey b)
    ∧ (save_entry "bob" "2024-02-02" 160 none
          (save_entry "alice" "2024-01-01" 150 none emptyStore)).rows.filter
          (fun e => decide (entryKey e = ("bob", "2024-02-02")))
        = [⟨(save_entry "alice" "2024-01-01" 150 none emptyStore).nextId,
            "bob", "2024-02-02", some 160, none⟩] := by
  have h := entries_unique_per_user_date
    (save_entry "alice" "2024-01-01" 150 none emptyStore)
    (Reachable.save "alice" "2024-01-01" 150 none emptyStore Reachable.init)
  exact ⟨h.1, h.2 "bob" "2024-02-02" 160 none⟩

end HealthTracker
